/-
Verification of the requester package of the heya HTTP load generator
(src/requester/requester.go).

The Go source is shallowly embedded below: pure computations become Lean
functions on Nat/Int, the stateful and concurrent parts become explicit
state passing, event traces, and environments that supply the outcomes of
external effects (clock readings, HTTP round trips, cancellation
observations).  Go int values are modelled as Int, with explicit
two-complement wrapping where an overflow could matter, and the float64
rate value QPS as an exact rational.  Division on Go int values is
Int.tdiv, which truncates toward zero exactly as Go division does.
-/
import Mathlib

namespace Requester

/-- Embedding of the helper min of requester.go lines 323-328:
if a < b then a else b, on Go int values. -/
def goMin (a b : Int) : Int := if a < b then a else b

/-- Worker share computation of runWorkers, requester.go lines 287-301, on
natural numbers.  The Go loop keeps left = N and, for i ranging over
0 .. C-2, assigns n = left / (C - i) and subtracts it from left; the final
goroutine receives the leftover.  At the step where k workers are still
unassigned the divisor C - i equals k, which gives this recursion on the
number of remaining workers. -/
def sharesNat : Nat → Nat → List Nat
  | _, 0 => []
  | r, 1 => [r]
  | r, k + 2 => r / (k + 2) :: sharesNat (r - r / (k + 2)) (k + 1)

/-- Worker share computation of runWorkers, requester.go lines 287-301, on
Go int values (the fields b.N and b.C are Go int).  Division is Int.tdiv,
the truncating division of Go.  The worker count C is kept as the list
length. -/
def shares : Int → Nat → List Int
  | _, 0 => []
  | r, 1 => [r]
  | r, k + 2 =>
    Int.tdiv r ((k + 2 : Nat) : Int) ::
      shares (r - Int.tdiv r ((k + 2 : Nat) : Int)) (k + 1)

/-- Hard cap on the result channel buffer, requester.go line 39. -/
def maxResult : Int := 32000000

/-- Cap on idle connections per host, requester.go line 40. -/
def maxIdleConn : Int := 500

/-- Two-complement wrap of a mathematical integer into the range of a Go
int (64 bits), used where an overflow could matter. -/
def goWrap64 (x : Int) : Int := (x + 2 ^ 63) % 2 ^ 64 - 2 ^ 63

/-- Capacity of the results channel created by Init, requester.go
line 123: make(chan *result, min(b.C*1000, maxResult)).  The product is
taken with Go wrap-around semantics. -/
def chanCap (C : Int) : Int := goMin (goWrap64 (C * 1000)) maxResult

/-- The portion of the Work state that Init touches: whether the guarded
sync.Once body has run, and the capacity of the results channel it
creates (none while the channel does not exist). -/
structure InitState where
  resultsCreated : Bool
  resultsCap : Option Int
  deriving DecidableEq

/-- Embedding of Init, requester.go lines 121-125: the sync.Once guard
runs the channel creation only if it has not run before; otherwise the
state is left untouched.  Run calls this same function at line 135, so an
implicit initialization by Run is one more application of workInit. -/
def workInit (C : Int) (s : InitState) : InitState :=
  if s.resultsCreated then s
  else { resultsCreated := true, resultsCap := some (chanCap C) }

/-- Outcome of one HTTP round trip as far as makeRequest reads it:
resp.StatusCode and the byte count obtained by draining resp.Body. -/
structure HResp where
  statusCode : Int
  bodyLen : Int
  deriving DecidableEq

/-- Values of the local duration variables of makeRequest after c.Do
returns, as written by the httptrace callbacks of requester.go lines
168-200 (zero when a callback never fired).  The callbacks are driven by
the network stack, so the values they leave behind are inputs to the
model. -/
structure TraceVars where
  connDuration : Int
  dnsDuration : Int
  reqDuration : Int
  delayDuration : Int
  resStart : Int
  deriving DecidableEq

/-- Outcome of c.Do at requester.go line 203: fail e exactly when the
returned err was non-nil. -/
inductive RoundTrip where
  | ok (resp : HResp)
  | fail (e : String)
  deriving DecidableEq

/-- One request attempt as seen by makeRequest, requester.go lines
156-226: s and t are the two now() readings around c.Do (lines 202 and
209), tv holds the callback-written durations, and rt is the outcome of
c.Do.  The clock now() is defined outside src/ (a package utility); per
the spec it records timestamps against a fixed epoch that is not later
than the run start, so its readings appear here as plain integer
inputs. -/
structure Attempt where
  s : Int
  t : Int
  tv : TraceVars
  rt : RoundTrip
  deriving DecidableEq

/-- The result struct of requester.go lines 42-53. -/
structure result where
  err : Option String
  statusCode : Int
  offset : Int
  duration : Int
  connDuration : Int
  dnsDuration : Int
  reqDuration : Int
  resDuration : Int
  delayDuration : Int
  contentLength : Int
  deriving DecidableEq

/-- Embedding of makeRequest, requester.go lines 156-226.  code and size
keep their zero values unless err == nil (lines 157-158 and 204-208); the
emitted result copies the callback durations and computes offset = s,
duration = t - s and resDuration = t - resStart (lines 209-224).  Exactly
one result value is produced per call, unconditionally. -/
def makeRequest (a : Attempt) : result :=
  let code : Int :=
    match a.rt with
    | RoundTrip.ok resp => resp.statusCode
    | RoundTrip.fail _ => 0
  let size : Int :=
    match a.rt with
    | RoundTrip.ok resp => resp.bodyLen
    | RoundTrip.fail _ => 0
  let errv : Option String :=
    match a.rt with
    | RoundTrip.ok _ => none
    | RoundTrip.fail e => some e
  { err := errv
    statusCode := code
    offset := a.s
    duration := a.t - a.s
    connDuration := a.tv.connDuration
    dnsDuration := a.tv.dnsDuration
    reqDuration := a.tv.reqDuration
    resDuration := a.t - a.tv.resStart
    delayDuration := a.tv.delayDuration
    contentLength := size }

/-- Environment of one worker: cancelled i is whether the select at
requester.go lines 242-244 observes ctx.Done() at loop iteration i, and
attempt i supplies the external data of the request made at iteration
i. -/
structure WorkerEnv where
  cancelled : Nat → Bool
  attempt : Nat → Attempt

/-- The loop of runWorker, requester.go lines 240-251, returning the list
of results the worker pushes onto the channel.  First argument: index of
the current iteration; second: remaining iteration count.  Observing
cancellation returns at once; otherwise makeRequest emits exactly one
result and the loop continues. -/
def runWorkerFrom (env : WorkerEnv) : Nat → Nat → List result
  | _, 0 => []
  | i, n + 1 =>
    if env.cancelled i then []
    else makeRequest (env.attempt i) :: runWorkerFrom env (i + 1) n

/-- Results pushed by one worker that was assigned n requests,
requester.go lines 228-252. -/
def runWorker (env : WorkerEnv) (n : Nat) : List result :=
  runWorkerFrom env 0 n

/-- Actions taken by the worker loop, in order: the cancellation check of
the select statement (with the value it observed), a blocking read of the
throttle channel, and a request execution carrying the result it
emits. -/
inductive WAct where
  | checkCancel (observed : Bool)
  | throttleWait
  | request (r : result)
  deriving DecidableEq

/-- Action trace of the runWorker loop, requester.go lines 240-251: each
iteration first checks cancellation; if it was observed the worker
returns, otherwise it blocks on the throttle channel when QPS > 0 (line
246-248) and then runs makeRequest. -/
def workerTraceFrom (qps : ℚ) (env : WorkerEnv) : Nat → Nat → List WAct
  | _, 0 => []
  | i, n + 1 =>
    WAct.checkCancel (env.cancelled i) ::
      (if env.cancelled i then []
       else
         (if 0 < qps then [WAct.throttleWait] else []) ++
           (WAct.request (makeRequest (env.attempt i)) ::
             workerTraceFrom qps env (i + 1) n))

/-- Action trace of a worker that was assigned n requests. -/
def workerTrace (qps : ℚ) (env : WorkerEnv) (n : Nat) : List WAct :=
  workerTraceFrom qps env 0 n

/-- The period, in whole microseconds, of the throttle ticker a worker
creates at requester.go line 231: time.Duration(1e6/b.QPS) converts the
float64 quotient to an integral Duration by truncation toward zero.  The
float64 arithmetic is modelled as exact rational arithmetic; for qps > 0
the truncated quotient is (1000000 * den) tdiv num. -/
def throttlePeriodMicros (qps : ℚ) : Int :=
  Int.tdiv (1000000 * (qps.den : Int)) qps.num

/-- The per-worker throttle gate of requester.go lines 229-232: a ticker
with the period of throttlePeriodMicros in nanoseconds (the Duration is
multiplied by time.Microsecond = 1000ns) when QPS > 0, and no gate at all
otherwise. -/
def throttleGate (qps : ℚ) : Option Int :=
  if 0 < qps then some (throttlePeriodMicros qps * 1000) else none

/-- Recognizer of request actions in a worker trace. -/
def isReq : WAct → Bool
  | WAct.checkCancel _ => false
  | WAct.throttleWait => false
  | WAct.request _ => true

/-- Recognizer of throttle waits in a worker trace. -/
def isWait : WAct → Bool
  | WAct.checkCancel _ => false
  | WAct.throttleWait => true
  | WAct.request _ => false

/-- Number of requests issued in a trace. -/
def countReq (l : List WAct) : Nat := l.countP isReq

/-- Number of throttle waits in a trace. -/
def countWait (l : List WAct) : Nat := l.countP isWait

/-- In every prefix of the trace, requests never outnumber throttle
waits: each request was preceded by a gate wait of its own. -/
def waitBeforeReq (l : List WAct) : Prop :=
  ∀ l1 l2, l = l1 ++ l2 → countReq l1 ≤ countWait l1

/-- Concatenation of the result lists produced by the workers, starting
at worker index w, given the share list: requester.go lines 287-301 hand
share n to worker i via runWorker.  The real channel interleaves these
lists by completion time; counting claims are stated up to permutation of
this concatenation. -/
def runAllFrom (envs : Nat → WorkerEnv) : Nat → List Nat → List result
  | _, [] => []
  | w, n :: rest => runWorker (envs w) n ++ runAllFrom envs (w + 1) rest

/-- All results produced by a run with total N and concurrency C whose
workers run in environments envs, up to completion-order
interleaving. -/
def runWorkersResults (N C : Nat) (envs : Nat → WorkerEnv) : List result :=
  runAllFrom envs 0 (sharesNat N C)

/-- Controller-level events of one run: a worker goroutine returning
(calling wg.Done, line 294/300), the channel close of finish (line 149),
the wait on report.done (line 152) and the final report (line 153). -/
inductive CEvent where
  | workerReturn (w : Nat)
  | closeResults
  | awaitReporterDone
  | finalizeReport
  deriving DecidableEq

/-- Trace of finish, requester.go lines 148-154: close the channel, wait
for the reporter, finalize. -/
def finishTrace : List CEvent :=
  [CEvent.closeResults, CEvent.awaitReporterDone, CEvent.finalizeReport]

/-- Trace of Run, requester.go lines 129-146: runWorkers blocks on
wg.Wait (line 303) and only then does Run call finish.  ws is the
interleaved event sequence observed while runWorkers executes; because of
wg.Wait it contains the return of every worker, and workers never close
the channel nor wait on the reporter. -/
def runTrace (ws : List CEvent) : List CEvent := ws ++ finishTrace

/-- Redirect policy values a Go http.Client CheckRedirect field can hold
in this program: nil (follow redirects, the default) or the closure of
requester.go lines 235-237 returning http.ErrUseLastResponse. -/
inductive RedirectPolicy where
  | useLastResponse
  deriving DecidableEq

/-- The http.Transport built by runWorkers, requester.go lines 263-284,
as a record of the configuration it carries. -/
structure TransportModel where
  insecureSkipVerify : Bool
  serverName : String
  sessionCacheSize : Option Nat
  maxIdleConnsPerHost : Int
  disableCompression : Bool
  disableKeepAlives : Bool
  hasProxy : Bool
  h2Configured : Bool
  tlsNextProtoEmptied : Bool
  deriving DecidableEq

/-- The http.Client built by runWorkers, requester.go line 285.  Its
CheckRedirect field is nil (none) at construction. -/
structure ClientModel where
  transport : TransportModel
  timeoutSeconds : Int
  checkRedirect : Option RedirectPolicy
  deriving DecidableEq

/-- The configuration fields of the Work struct, requester.go lines
55-111, that runWorkers and runWorker read. -/
structure WorkCfg where
  N : Int
  C : Int
  K : Bool
  H2 : Bool
  TLSResume : Bool
  Timeout : Int
  QPS : ℚ
  DisableCompression : Bool
  DisableKeepAlives : Bool
  DisableRedirects : Bool
  proxySet : Bool
  deriving DecidableEq

/-- Transport construction of runWorkers, requester.go lines 263-284.
hostName is the TLS server name derived from the request host at lines
258-261 (host with the port stripped, or the raw host on a split error).
The session cache holds one entry exactly when TLSResume is set (line
266); idle connections per host are capped at min(C, maxIdleConn) (line
275); without H2 the TLSNextProto map is emptied (line 283). -/
def mkTransport (cfg : WorkCfg) (hostName : String) : TransportModel :=
  { insecureSkipVerify := cfg.K
    serverName := hostName
    sessionCacheSize := if cfg.TLSResume then some 1 else none
    maxIdleConnsPerHost := goMin cfg.C maxIdleConn
    disableCompression := cfg.DisableCompression
    disableKeepAlives := cfg.DisableKeepAlives
    hasProxy := cfg.proxySet
    h2Configured := cfg.H2
    tlsNextProtoEmptied := !cfg.H2 }

/-- Client construction of runWorkers, requester.go line 285: the
transport, the whole-round-trip timeout in seconds, and a nil
CheckRedirect. -/
def mkClient (cfg : WorkCfg) (hostName : String) : ClientModel :=
  { transport := mkTransport cfg hostName
    timeoutSeconds := cfg.Timeout
    checkRedirect := none }

/-- The per-worker setup step of runWorker, requester.go lines 234-238:
when DisableRedirects is set, every worker assigns the use-last-response
closure to the CheckRedirect field of the shared client. -/
def runWorkerSetup (disableRedirects : Bool) (c : ClientModel) : ClientModel :=
  if disableRedirects then { c with checkRedirect := some RedirectPolicy.useLastResponse }
  else c

/-- The fields of an http.Request that cloneRequest copies, requester.go
lines 306-321.  bodyRef is the identity of the io.ReadCloser object in
the Body field (none for a nil Body); a fresh identity stands for a newly
allocated NopCloser around a new bytes.Reader. -/
structure GoRequest where
  method : String
  url : String
  header : List (String × List String)
  bodyRef : Option Nat
  deriving DecidableEq

/-- Embedding of cloneRequest, requester.go lines 306-321: shallow copy
of the struct, deep (value) copy of the Header map, and a fresh body
reader only when len(body) > 0; otherwise the Body field keeps the
shallow-copied reader of the template. -/
def cloneRequest (r : GoRequest) (body : List UInt8) (freshRef : Nat) : GoRequest :=
  let r2 : GoRequest :=
    { method := r.method
      url := r.url
      header := r.header.map (fun kv => (kv.1, kv.2.map id))
      bodyRef := r.bodyRef }
  if 0 < body.length then { r2 with bodyRef := some freshRef } else r2

/-- A successful concrete attempt, used by witnesses. -/
def okAttempt : Attempt :=
  { s := 3
    t := 9
    tv := { connDuration := 1, dnsDuration := 1, reqDuration := 1,
            delayDuration := 2, resStart := 8 }
    rt := RoundTrip.ok { statusCode := 200, bodyLen := 5 } }

/-- A failed concrete attempt, used by witnesses. -/
def errAttempt : Attempt :=
  { s := 4
    t := 6
    tv := { connDuration := 0, dnsDuration := 0, reqDuration := 0,
            delayDuration := 0, resStart := 0 }
    rt := RoundTrip.fail "connection refused" }

/-- A worker environment that never observes cancellation. -/
def envPlain : WorkerEnv :=
  { cancelled := fun _ => false, attempt := fun _ => okAttempt }

/-- A worker environment whose first attempt fails. -/
def envErr : WorkerEnv :=
  { cancelled := fun _ => false
    attempt := fun i => if i = 0 then errAttempt else okAttempt }

/-- A worker environment that observes cancellation from iteration 2
on. -/
def envStop2 : WorkerEnv :=
  { cancelled := fun i => decide (2 ≤ i), attempt := fun _ => okAttempt }

/-- A concrete attempt whose start reading is 7, for a run whose start
reading was 5. -/
def attemptAt7 : Attempt :=
  { s := 7
    t := 9
    tv := { connDuration := 0, dnsDuration := 0, reqDuration := 0,
            delayDuration := 0, resStart := 8 }
    rt := RoundTrip.ok { statusCode := 200, bodyLen := 3 } }

/-- A concrete configuration with redirect following disabled. -/
def cfgRedirect : WorkCfg :=
  { N := 4, C := 2, K := false, H2 := false, TLSResume := false,
    Timeout := 10, QPS := 0, DisableCompression := false,
    DisableKeepAlives := false, DisableRedirects := true, proxySet := false }

/- ------------------------------------------------------------------ -/
/- Helper lemmas about the share computation.                          -/
/- ------------------------------------------------------------------ -/

theorem sharesNat_sum : ∀ (k r : Nat), 1 ≤ k → (sharesNat r k).sum = r
  | 0, _, h => by omega
  | 1, r, _ => by simp [sharesNat]
  | k + 2, r, _ => by
    have ih := sharesNat_sum (k + 1) (r - r / (k + 2)) (by omega)
    have hle : r / (k + 2) ≤ r := Nat.div_le_self r (k + 2)
    simp only [sharesNat, List.sum_cons, ih]
    omega

/-- Pointwise identity behind the closed form of sharesNat: taking out
the first share r / (k + 2) and moving to k + 1 workers shifts the index
by one. -/
theorem sharesNat_div_shift (k r j : Nat) (hj : j < k + 1) :
    (r - r / (k + 2) + j) / (k + 1) = (r + (j + 1)) / (k + 2) := by
  have hqs : (k + 2) * (r / (k + 2)) + r % (k + 2) = r := Nat.div_add_mod r (k + 2)
  have hs : r % (k + 2) < k + 2 := Nat.mod_lt r (by omega)
  set q := r / (k + 2) with hq
  set s := r % (k + 2) with hsdef
  have hexp : (k + 2) * q = (k + 1) * q + q := by ring
  have h1 : r - q + j = (k + 1) * q + (s + j) := by omega
  have h2 : r + (j + 1) = (k + 2) * q + (s + j + 1) := by omega
  rw [h1, h2, Nat.mul_add_div (by omega), Nat.mul_add_div (by omega)]
  rcases Nat.lt_or_ge (s + j) (k + 1) with hlt | hge
  · rw [Nat.div_eq_of_lt (by omega), Nat.div_eq_of_lt (by omega)]
  · have ha : (s + j) / (k + 1) = 1 := by
      have hub : (s + j) / (k + 1) < 2 :=
        (Nat.div_lt_iff_lt_mul (by omega)).mpr (by omega)
      have hlb : 1 ≤ (s + j) / (k + 1) :=
        (Nat.le_div_iff_mul_le (by omega)).mpr (by omega)
      omega
    have hb : (s + j + 1) / (k + 2) = 1 := by
      have hub : (s + j + 1) / (k + 2) < 2 :=
        (Nat.div_lt_iff_lt_mul (by omega)).mpr (by omega)
      have hlb : 1 ≤ (s + j + 1) / (k + 2) :=
        (Nat.le_div_iff_mul_le (by omega)).mpr (by omega)
      omega
    rw [ha, hb]

/-- Closed form of the greedy share computation: worker j of k receives
(r + j) / k. -/
theorem sharesNat_closed : ∀ (k r : Nat), 1 ≤ k →
    sharesNat r k = (List.range k).map (fun j => (r + j) / k)
  | 0, _, h => by omega
  | 1, r, _ => by simp [sharesNat, List.range_succ]
  | k + 2, r, _ => by
    have ih := sharesNat_closed (k + 1) (r - r / (k + 2)) (by omega)
    have hshift : ∀ j ∈ List.range (k + 1),
        (fun j => (r - r / (k + 2) + j) / (k + 1)) j =
          (fun j => (r + (j + 1)) / (k + 2)) j := by
      intro j hj
      exact sharesNat_div_shift k r j (List.mem_range.mp hj)
    calc sharesNat r (k + 2)
        = r / (k + 2) ::
            (List.range (k + 1)).map (fun j => (r - r / (k + 2) + j) / (k + 1)) := by
          rw [sharesNat, ih]
      _ = r / (k + 2) ::
            (List.range (k + 1)).map (fun j => (r + (j + 1)) / (k + 2)) := by
          rw [List.map_congr_left hshift]
      _ = (List.range (k + 2)).map (fun j => (r + j) / (k + 2)) := by
          conv_rhs => rw [List.range_succ_eq_map, List.map_cons, List.map_map]
          refine congrArg₂ List.cons (by rfl) ?_
          refine List.map_congr_left ?_
          intro j hj
          simp [Function.comp]

/-- Every share lies between the floor and the ceiling of r / k. -/
theorem sharesNat_bounds (k r : Nat) (hk : 1 ≤ k) :
    ∀ x ∈ sharesNat r k, r / k ≤ x ∧ x ≤ (r + (k - 1)) / k := by
  intro x hx
  rw [sharesNat_closed k r hk] at hx
  simp only [List.mem_map, List.mem_range] at hx
  obtain ⟨j, hj, rfl⟩ := hx
  exact ⟨Nat.div_le_div_right (by omega), Nat.div_le_div_right (by omega)⟩

/-- The ceiling of r / k exceeds its floor by at most one. -/
theorem sharesNat_ceil_le (k r : Nat) (hk : 1 ≤ k) :
    (r + (k - 1)) / k ≤ r / k + 1 := by
  calc (r + (k - 1)) / k ≤ (r + k) / k := Nat.div_le_div_right (by omega)
    _ = r / k + 1 := Nat.add_div_right r (by omega)

/-- On a non-negative total the Go int computation agrees with the
natural-number one. -/
theorem shares_eq_map_ofNat : ∀ (k r : Nat),
    shares ((r : Nat) : Int) k = List.map (fun a : Nat => (a : Int)) (sharesNat r k)
  | 0, _ => rfl
  | 1, _ => rfl
  | k + 2, r => by
    have hdiv : Int.tdiv ((r : Nat) : Int) ((k + 2 : Nat) : Int) =
        ((r / (k + 2) : Nat) : Int) := (Int.ofNat_tdiv r (k + 2)).symm
    have hle : r / (k + 2) ≤ r := Nat.div_le_self r (k + 2)
    have hsub : ((r : Nat) : Int) - ((r / (k + 2) : Nat) : Int) =
        ((r - r / (k + 2) : Nat) : Int) := by omega
    rw [shares, sharesNat, List.map_cons, hdiv, hsub,
      shares_eq_map_ofNat (k + 1) (r - r / (k + 2))]

/-- Casting sums commutes with mapping the coercion over the list. -/
theorem sum_map_ofNat : ∀ l : List Nat,
    (List.map (fun a : Nat => (a : Int)) l).sum = ((l.sum : Nat) : Int)
  | [] => rfl
  | a :: l => by
    simp only [List.map_cons, List.sum_cons, sum_map_ofNat l]
    omega

/-- C1: for every N >= 0 and C >= 1, the worker-share computation of
runWorkers produces C non-negative shares whose sum is exactly N and in
which no two shares differ by more than 1. -/
theorem shares_partition (N : Int) (C : Nat) (hN : 0 ≤ N) (hC : 1 ≤ C) :
    (shares N C).length = C ∧
    (∀ x ∈ shares N C, 0 ≤ x) ∧
    (shares N C).sum = N ∧
    (∀ x ∈ shares N C, ∀ y ∈ shares N C, |x - y| ≤ 1) := by
  obtain ⟨n, rfl⟩ : ∃ n : Nat, N = ((n : Nat) : Int) :=
    ⟨N.toNat, by omega⟩
  rw [shares_eq_map_ofNat]
  refine ⟨?_, ?_, ?_, ?_⟩
  · rw [List.length_map, sharesNat_closed C n hC, List.length_map,
      List.length_range]
  · intro x hx
    simp only [List.mem_map] at hx
    obtain ⟨a, _, rfl⟩ := hx
    omega
  · rw [sum_map_ofNat, sharesNat_sum C n hC]
  · intro x hx y hy
    simp only [List.mem_map] at hx hy
    obtain ⟨a, ha, rfl⟩ := hx
    obtain ⟨b, hb, rfl⟩ := hy
    obtain ⟨hfa, hca⟩ := sharesNat_bounds C n hC a ha
    obtain ⟨hfb, hcb⟩ := sharesNat_bounds C n hC b hb
    have hceil := sharesNat_ceil_le C n hC
    rw [abs_le]
    omega

/-- Witness for C1 at N = 10, C = 3 (shares 3, 3, 4). -/
theorem shares_partition_witness :
    (0 : Int) ≤ 10 ∧ 1 ≤ 3 ∧
      ((shares 10 3).length = 3 ∧
       (∀ x ∈ shares 10 3, 0 ≤ x) ∧
       (shares 10 3).sum = 10 ∧
       (∀ x ∈ shares 10 3, ∀ y ∈ shares 10 3, |x - y| ≤ 1)) :=
  ⟨by decide, by decide, shares_partition 10 3 (by decide) (by decide)⟩

/- ------------------------------------------------------------------ -/
/- Helper lemmas about the worker loop.                                -/
/- ------------------------------------------------------------------ -/

/-- A stretch of iterations in which cancellation is never observed runs
every iteration and emits one result per attempt. -/
theorem runWorkerFrom_eq_map (env : WorkerEnv) :
    ∀ (n i : Nat), (∀ j, i ≤ j → j < i + n → env.cancelled j = false) →
      runWorkerFrom env i n =
        (List.range' i n).map (fun j => makeRequest (env.attempt j))
  | 0, i, _ => by simp [runWorkerFrom]
  | n + 1, i, h => by
    have hc : env.cancelled i = false := h i (Nat.le_refl i) (by omega)
    have ih := runWorkerFrom_eq_map env n (i + 1)
      (fun j hj1 hj2 => h j (by omega) (by omega))
    simp [runWorkerFrom, hc, ih, List.range'_succ]

/-- When cancellation is first observed at iteration k, only the
iterations before k run, each emitting one result. -/
theorem runWorkerFrom_cancel (env : WorkerEnv) :
    ∀ (n i k : Nat), i ≤ k → k < i + n → env.cancelled k = true →
      (∀ j, i ≤ j → j < k → env.cancelled j = false) →
      runWorkerFrom env i n =
        (List.range' i (k - i)).map (fun j => makeRequest (env.attempt j))
  | 0, _, _, h1, h2, _, _ => by omega
  | n + 1, i, k, h1, h2, hk, hprev => by
    rcases Nat.eq_or_lt_of_le h1 with rfl | hik
    · simp [runWorkerFrom, hk, Nat.sub_self]
    · have hc : env.cancelled i = false := hprev i (Nat.le_refl i) (by omega)
      have ih := runWorkerFrom_cancel env n (i + 1) k (by omega) (by omega) hk
        (fun j hj1 hj2 => hprev j (by omega) hj2)
      have hki : k - i = (k - (i + 1)) + 1 := by omega
      rw [hki]
      simp [runWorkerFrom, hc, ih, List.range'_succ]

/-- Trace analogue: when cancellation is first observed at iteration k,
the trace is that of the k - i complete iterations followed by the check
that observed the cancellation, and nothing else. -/
theorem workerTraceFrom_cancel (qps : ℚ) (env : WorkerEnv) :
    ∀ (n i k : Nat), i ≤ k → k < i + n → env.cancelled k = true →
      (∀ j, i ≤ j → j < k → env.cancelled j = false) →
      workerTraceFrom qps env i n =
        workerTraceFrom qps env i (k - i) ++ [WAct.checkCancel true]
  | 0, _, _, h1, h2, _, _ => by omega
  | n + 1, i, k, h1, h2, hk, hprev => by
    rcases Nat.eq_or_lt_of_le h1 with rfl | hik
    · simp [workerTraceFrom, hk, Nat.sub_self]
    · have hc : env.cancelled i = false := hprev i (Nat.le_refl i) (by omega)
      have ih := workerTraceFrom_cancel qps env n (i + 1) k (by omega) (by omega) hk
        (fun j hj1 hj2 => hprev j (by omega) hj2)
      have hki : k - i = (k - (i + 1)) + 1 := by omega
      rw [hki]
      simp [workerTraceFrom, hc, ih, List.append_assoc]

/-- A worker that never observes cancellation emits exactly its assigned
number of results. -/
theorem runWorker_length (env : WorkerEnv) (n : Nat)
    (h : ∀ j, env.cancelled j = false) : (runWorker env n).length = n := by
  rw [runWorker, runWorkerFrom_eq_map env n 0 (fun j _ _ => h j)]
  simp

/-- The concatenated output of cancellation-free workers has one result
per assigned request. -/
theorem runAllFrom_length (envs : Nat → WorkerEnv)
    (hnc : ∀ w j, (envs w).cancelled j = false) :
    ∀ (l : List Nat) (w : Nat), (runAllFrom envs w l).length = l.sum
  | [], _ => rfl
  | n :: rest, w => by
    simp only [runAllFrom, List.length_append, List.sum_cons,
      runWorker_length (envs w) n (hnc w),
      runAllFrom_length envs hnc rest (w + 1)]

/-- C2: in a run that is never cancelled, exactly N results are pushed
onto the results channel in total, whatever completion order interleaves
them: every call to makeRequest emits exactly one result whether the
request succeeds or fails, and each worker loop calls makeRequest once
per assigned request. -/
theorem results_count_exact (N C : Nat) (envs : Nat → WorkerEnv) (hC : 1 ≤ C)
    (hnc : ∀ w j, (envs w).cancelled j = false)
    (out : List result) (hout : out.Perm (runWorkersResults N C envs)) :
    out.length = N := by
  rw [hout.length_eq, runWorkersResults,
    runAllFrom_length envs hnc (sharesNat N C) 0, sharesNat_sum C N hC]

/-- Witness for C2 at N = 4, C = 3 with cancellation-free workers. -/
theorem results_count_exact_witness :
    1 ≤ 3 ∧ (∀ w j, ((fun _ : Nat => envPlain) w).cancelled j = false) ∧
      (runWorkersResults 4 3 (fun _ => envPlain)).length = 4 :=
  ⟨by decide, fun w j => rfl,
    results_count_exact 4 3 (fun _ => envPlain) (by decide) (fun w j => rfl) _
      (List.Perm.refl _)⟩

/-- C5: cancellation is checked once per loop iteration, before the rate
gate; once observed at iteration k the worker returns without starting a
new request (the trace ends right after the observing check), while every
iteration before k ran makeRequest to completion and emitted its
result. -/
theorem cancel_stops_new_requests (qps : ℚ) (env : WorkerEnv) (n k : Nat)
    (hk : k < n) (hobs : env.cancelled k = true)
    (hprev : ∀ j, j < k → env.cancelled j = false) :
    runWorker env n = (List.range k).map (fun j => makeRequest (env.attempt j)) ∧
    workerTrace qps env n = workerTrace qps env k ++ [WAct.checkCancel true] := by
  constructor
  · rw [runWorker, runWorkerFrom_cancel env n 0 k (by omega) (by omega) hobs
      (fun j _ hj => hprev j hj), List.range_eq_range', Nat.sub_zero]
  · rw [workerTrace, workerTrace,
      workerTraceFrom_cancel qps env n 0 k (by omega) (by omega) hobs
        (fun j _ hj => hprev j hj), Nat.sub_zero]

/-- Witness for C5: a worker with 4 assigned requests that observes
cancellation at iteration 2 emits exactly the first 2 results. -/
theorem cancel_stops_new_requests_witness :
    2 < 4 ∧ envStop2.cancelled 2 = true ∧
      (∀ j, j < 2 → envStop2.cancelled j = false) ∧
      (runWorker envStop2 4 =
        (List.range 2).map (fun j => makeRequest (envStop2.attempt j)) ∧
       workerTrace 2 envStop2 4 = workerTrace 2 envStop2 2 ++ [WAct.checkCancel true]) := by
  have hprev : ∀ j, j < 2 → envStop2.cancelled j = false := by
    intro j hj
    interval_cases j <;> rfl
  exact ⟨by decide, by decide, hprev,
    cancel_stops_new_requests 2 envStop2 4 2 (by decide) (by decide) hprev⟩

/-- C8: a request attempt whose round trip fails yields a result carrying
that error, status code 0 and content length 0, and the worker proceeds
through all its assigned requests regardless: the emitted list covers
every attempt index. -/
theorem request_error_capture (env : WorkerEnv) (n k : Nat) (e : String)
    (_hk : k < n) (hnc : ∀ j, env.cancelled j = false)
    (herr : (env.attempt k).rt = RoundTrip.fail e) :
    runWorker env n = (List.range n).map (fun j => makeRequest (env.attempt j)) ∧
    (makeRequest (env.attempt k)).err = some e ∧
    (makeRequest (env.attempt k)).statusCode = 0 ∧
    (makeRequest (env.attempt k)).contentLength = 0 := by
  refine ⟨?_, ?_, ?_, ?_⟩
  · rw [runWorker, runWorkerFrom_eq_map env n 0 (fun j _ _ => hnc j),
      List.range_eq_range']
  all_goals simp [makeRequest, herr]

/-- Witness for C8: the first of two attempts fails with
"connection refused". -/
theorem request_error_capture_witness :
    0 < 2 ∧ (∀ j, envErr.cancelled j = false) ∧
      (envErr.attempt 0).rt = RoundTrip.fail "connection refused" ∧
      (runWorker envErr 2 =
        (List.range 2).map (fun j => makeRequest (envErr.attempt j)) ∧
       (makeRequest (envErr.attempt 0)).err = some "connection refused" ∧
       (makeRequest (envErr.attempt 0)).statusCode = 0 ∧
       (makeRequest (envErr.attempt 0)).contentLength = 0) :=
  ⟨by decide, fun j => rfl, rfl,
    request_error_capture envErr 2 0 "connection refused" (by decide)
      (fun j => rfl) rfl⟩

/- ------------------------------------------------------------------ -/
/- Helper lemmas about the throttle gate.                              -/
/- ------------------------------------------------------------------ -/

/-- The empty trace satisfies the gating invariant. -/
theorem waitBeforeReq_nil : waitBeforeReq [] := by
  intro l1 l2 h
  rcases List.append_eq_nil.mp h.symm with ⟨rfl, rfl⟩
  simp [countReq, countWait]

/-- Prepending a cancellation check preserves the gating invariant. -/
theorem waitBeforeReq_check (b : Bool) (rest : List WAct)
    (h : waitBeforeReq rest) : waitBeforeReq (WAct.checkCancel b :: rest) := by
  intro l1 l2 heq
  cases l1 with
  | nil => simp [countReq, countWait]
  | cons a t =>
    rw [List.cons_append] at heq
    injection heq with ha ht
    subst ha
    have hc := h t l2 ht
    simp only [countReq, countWait, List.countP_cons, isReq, isWait,
      Bool.false_eq_true, if_false, if_true] at hc ⊢
    omega

/-- Prepending one full gated iteration (check, wait, request) preserves
the gating invariant. -/
theorem waitBeforeReq_block (b : Bool) (r : result) (rest : List WAct)
    (h : waitBeforeReq rest) :
    waitBeforeReq (WAct.checkCancel b :: WAct.throttleWait ::
      WAct.request r :: rest) := by
  intro l1 l2 heq
  cases l1 with
  | nil =>
    simp only [countReq, countWait, List.countP_nil]
    omega
  | cons a1 t1 =>
    rw [List.cons_append] at heq
    injection heq with ha1 heq
    subst ha1
    cases t1 with
    | nil =>
      simp only [countReq, countWait, List.countP_cons, List.countP_nil, isReq, isWait,
        Bool.false_eq_true, if_false, if_true]
      omega
    | cons a2 t2 =>
      rw [List.cons_append] at heq
      injection heq with ha2 heq
      subst ha2
      cases t2 with
      | nil =>
        simp only [countReq, countWait, List.countP_cons, List.countP_nil, isReq, isWait,
        Bool.false_eq_true, if_false, if_true]
        omega
      | cons a3 t3 =>
        rw [List.cons_append] at heq
        injection heq with ha3 heq
        subst ha3
        have hc := h t3 l2 heq
        simp only [countReq, countWait, List.countP_cons, isReq, isWait,
      Bool.false_eq_true, if_false, if_true] at hc ⊢
        omega

/-- With a positive rate every worker trace satisfies the gating
invariant: in every prefix, requests never outnumber throttle waits. -/
theorem workerTrace_wait_before_req (qps : ℚ) (hq : 0 < qps) (env : WorkerEnv) :
    ∀ (n i : Nat), waitBeforeReq (workerTraceFrom qps env i n)
  | 0, i => by
    simp only [workerTraceFrom]
    exact waitBeforeReq_nil
  | n + 1, i => by
    have ih := workerTrace_wait_before_req qps hq env n (i + 1)
    cases hcan : env.cancelled i with
    | true =>
      simp [workerTraceFrom, hcan]
      exact waitBeforeReq_check true [] waitBeforeReq_nil
    | false =>
      simp [workerTraceFrom, hcan, hq]
      exact waitBeforeReq_block false _ _ ih

/-- With a non-positive rate no worker trace ever waits on a gate. -/
theorem workerTrace_no_wait (qps : ℚ) (hq : ¬ 0 < qps) (env : WorkerEnv) :
    ∀ (n i : Nat) (a : WAct), a ∈ workerTraceFrom qps env i n → isWait a = false
  | 0, _, a, ha => by simp [workerTraceFrom] at ha
  | n + 1, i, a, ha => by
    simp only [workerTraceFrom, if_neg hq, List.nil_append, List.mem_cons] at ha
    rcases ha with rfl | ha2
    · rfl
    · cases hcan : env.cancelled i with
      | true =>
        rw [hcan] at ha2
        simp at ha2
      | false =>
        rw [hcan] at ha2
        simp only [Bool.false_eq_true, if_false, List.mem_cons] at ha2
        rcases ha2 with rfl | ha3
        · rfl
        · exact workerTrace_no_wait qps hq env n (i + 1) a ha3

/-- For a positive rate, the integer microsecond period computed from the
numerator and denominator of QPS is the floor of 1000000 / QPS. -/
theorem throttlePeriod_eq_floor (qps : ℚ) (h : 0 < qps) :
    throttlePeriodMicros qps = ⌊(1000000 : ℚ) / qps⌋ := by
  have hnum : 0 < qps.num := Rat.num_pos.mpr h
  have hn : qps.num = (qps.num.toNat : Int) := (Int.toNat_of_nonneg (le_of_lt hnum)).symm
  have hcast : ((qps.num.toNat : ℕ) : ℚ) = (qps.num : ℚ) := by
    exact_mod_cast (congrArg (fun z : ℤ => (z : ℚ)) hn).symm
  have hq : (1000000 : ℚ) / qps =
      ((1000000 * (qps.den : Int) : Int) : ℚ) / ((qps.num.toNat : ℕ) : ℚ) := by
    conv_lhs => rw [← Rat.num_div_den qps]
    rw [div_div_eq_mul_div, hcast]
    push_cast
    ring
  rw [throttlePeriodMicros, hq, Rat.floor_intCast_div_natCast,
    Int.tdiv_eq_ediv (by positivity) (le_of_lt hnum), ← hn]

/-- C6 counterexample: at QPS = 3 the gate period is 333333 whole
microseconds (333333000 ns), while 1000000 / 3 microseconds would be
333333333.33.. ns, so the period is not 1000000 / QPS microseconds as
stated. -/
theorem throttle_period_counterexample :
    throttleGate 3 = some 333333000 ∧
      ((333333000 : ℚ) ≠ ((1000000 : ℚ) / 3) * 1000) := by
  constructor
  · decide
  · norm_num

/-- C6 (amended): if QPS > 0, each worker creates its own periodic gate
(throttleGate is built inside runWorker, so each call owns one) with
period the floor of 1000000 / QPS in whole microseconds, and the worker
blocks on the gate before issuing each request: in every prefix of its
trace, requests never outnumber gate waits.  If QPS <= 0 no gate is
created and the trace contains no gate wait at all. -/
theorem throttle_gate_amended (qps : ℚ) (env : WorkerEnv) (n : Nat) :
    (0 < qps →
      throttleGate qps = some (⌊(1000000 : ℚ) / qps⌋ * 1000) ∧
      waitBeforeReq (workerTrace qps env n)) ∧
    (qps ≤ 0 →
      throttleGate qps = none ∧
      ∀ a ∈ workerTrace qps env n, isWait a = false) := by
  constructor
  · intro hq
    refine ⟨?_, workerTrace_wait_before_req qps hq env n 0⟩
    rw [throttleGate, if_pos hq, throttlePeriod_eq_floor qps hq]
  · intro hq
    have hq2 : ¬ 0 < qps := not_lt.mpr hq
    exact ⟨by rw [throttleGate, if_neg hq2],
      fun a ha => workerTrace_no_wait qps hq2 env n 0 a ha⟩

/-- Witness for the amended C6 at QPS = 2 (gate period 500000 us =
500000000 ns) and one assigned request. -/
theorem throttle_gate_amended_witness :
    (0 : ℚ) < 2 ∧ throttleGate 2 = some 500000000 ∧
      waitBeforeReq (workerTrace 2 envPlain 1) := by
  have h := (throttle_gate_amended 2 envPlain 1).1 (by norm_num)
  exact ⟨by norm_num, by decide, h.2⟩

/- ------------------------------------------------------------------ -/
/- Initialization, controller ordering, client setup, cloning.         -/
/- ------------------------------------------------------------------ -/

/-- Once the sync.Once body has run, workInit leaves the state
untouched. -/
theorem workInit_fixed (C : Int) (s : InitState) (h : s.resultsCreated = true) :
    workInit C s = s := by
  simp [workInit, h]

/-- Iterating workInit on an initialized state changes nothing. -/
theorem workInit_iterate_fixed (C : Int) :
    ∀ (n : Nat) (s : InitState), s.resultsCreated = true → (workInit C)^[n] s = s
  | 0, _, _ => rfl
  | n + 1, s, h => by
    rw [Function.iterate_succ_apply, workInit_fixed C s h,
      workInit_iterate_fixed C n s h]

/-- The Go helper min agrees with the mathematical min on Int. -/
theorem goMin_eq_min (a b : Int) : goMin a b = min a b := by
  rw [goMin, min_def]
  split <;> split <;> omega

/-- C3: calling Init any number of times, including the implicit call
made by Run (line 135 calls the same Init), creates the results channel
exactly once; the channel created on the first call has buffer capacity
min(C * 1000, 32000000), and any later call leaves the state
unchanged. -/
theorem init_creates_channel_once (C : Int) (n : Nat) (s : InitState) :
    ((workInit C)^[n + 1] { resultsCreated := false, resultsCap := none } =
      workInit C { resultsCreated := false, resultsCap := none }) ∧
    (workInit C { resultsCreated := false, resultsCap := none }).resultsCap =
      some (chanCap C) ∧
    (0 ≤ C → C * 1000 < 2 ^ 63 → chanCap C = min (C * 1000) maxResult) ∧
    (s.resultsCreated = true → workInit C s = s) := by
  refine ⟨?_, ?_, ?_, ?_⟩
  · rw [Function.iterate_succ_apply]
    exact workInit_iterate_fixed C n _ (by simp [workInit])
  · simp [workInit]
  · intro h1 h2
    have h63 : (2 : Int) ^ 63 = 9223372036854775808 := by norm_num
    have h64 : (2 : Int) ^ 64 = 18446744073709551616 := by norm_num
    rw [h63] at h2
    have hwrap : goWrap64 (C * 1000) = C * 1000 := by
      rw [goWrap64, h63, h64]
      have hmod : (C * 1000 + 9223372036854775808) % 18446744073709551616 =
          C * 1000 + 9223372036854775808 :=
        Int.emod_eq_of_lt (by omega) (by omega)
      omega
    rw [chanCap, hwrap, goMin_eq_min]
  · exact workInit_fixed C s

/-- Witness for C3 at C = 7: three Init calls leave the single channel of
capacity 7000, and Init on an initialized state is the identity. -/
theorem init_creates_channel_once_witness :
    (0 : Int) ≤ 7 ∧ (7 : Int) * 1000 < 2 ^ 63 ∧
      ((workInit 7)^[3] { resultsCreated := false, resultsCap := none } =
        workInit 7 { resultsCreated := false, resultsCap := none }) ∧
      (workInit 7 { resultsCreated := false, resultsCap := none }).resultsCap =
        some (chanCap 7) ∧
      chanCap 7 = min ((7 : Int) * 1000) maxResult ∧
      workInit 7 { resultsCreated := true, resultsCap := some 5 } =
        { resultsCreated := true, resultsCap := some 5 } := by
  have h := init_creates_channel_once 7 2 { resultsCreated := true, resultsCap := some 5 }
  exact ⟨by norm_num, by norm_num, h.1, h.2.1, h.2.2.1 (by norm_num) (by norm_num),
    h.2.2.2 rfl⟩

/-- C4: the results channel is closed only after every one of the C
workers has returned: wg.Wait makes runWorkers return only once the
trace ws of the worker phase contains every workerReturn, and only then
does Run call finish, whose trace closes the channel exactly once and
waits on the done signal of the reporter strictly after the close. -/
theorem close_after_all_workers (C : Nat) (ws : List CEvent)
    (hall : ∀ w, w < C → CEvent.workerReturn w ∈ ws)
    (hnoc : CEvent.closeResults ∉ ws)
    (hnoa : CEvent.awaitReporterDone ∉ ws) :
    ∃ l1 l2, runTrace ws = l1 ++ CEvent.closeResults :: l2 ∧
      CEvent.closeResults ∉ l1 ∧ CEvent.closeResults ∉ l2 ∧
      (∀ w, w < C → CEvent.workerReturn w ∈ l1) ∧
      CEvent.awaitReporterDone ∉ l1 ∧
      l2 = [CEvent.awaitReporterDone, CEvent.finalizeReport] :=
  ⟨ws, [CEvent.awaitReporterDone, CEvent.finalizeReport], rfl, hnoc, by decide,
    hall, hnoa, rfl⟩

/-- Witness for C4 with two workers whose returns interleave in reverse
order. -/
theorem close_after_all_workers_witness :
    (∀ w, w < 2 → CEvent.workerReturn w ∈
      [CEvent.workerReturn 1, CEvent.workerReturn 0]) ∧
    CEvent.closeResults ∉ [CEvent.workerReturn 1, CEvent.workerReturn 0] ∧
    CEvent.awaitReporterDone ∉ [CEvent.workerReturn 1, CEvent.workerReturn 0] ∧
    (∃ l1 l2, runTrace [CEvent.workerReturn 1, CEvent.workerReturn 0] =
        l1 ++ CEvent.closeResults :: l2 ∧
      CEvent.closeResults ∉ l1 ∧ CEvent.closeResults ∉ l2 ∧
      (∀ w, w < 2 → CEvent.workerReturn w ∈ l1) ∧
      CEvent.awaitReporterDone ∉ l1 ∧
      l2 = [CEvent.awaitReporterDone, CEvent.finalizeReport]) := by
  refine ⟨by decide, by decide, by decide, ?_⟩
  exact close_after_all_workers 2 _ (by decide) (by decide) (by decide)

/-- C7 counterexample: for a Job Specification with DisableRedirects set,
the per-worker setup of runWorker (lines 234-238) modifies the
CheckRedirect field of the shared client after its construction, so the
claim that no worker modifies any field of the client for every Job
Specification is false. -/
theorem client_mutation_counterexample :
    runWorkerSetup cfgRedirect.DisableRedirects
        (mkClient cfgRedirect "example.com") ≠
      mkClient cfgRedirect "example.com" := by decide

/-- C7 (amended): the transport is never modified by any worker; the
client is left untouched whenever DisableRedirects is unset, and when it
is set every worker performs the same idempotent assignment of the
use-last-response policy to the CheckRedirect field, the only client
field ever written after construction. -/
theorem client_mutation_amended (cfg : WorkCfg) (hostName : String)
    (c : ClientModel) :
    (runWorkerSetup cfg.DisableRedirects (mkClient cfg hostName)).transport =
      (mkClient cfg hostName).transport ∧
    (cfg.DisableRedirects = false →
      runWorkerSetup cfg.DisableRedirects (mkClient cfg hostName) =
        mkClient cfg hostName) ∧
    (cfg.DisableRedirects = true →
      runWorkerSetup cfg.DisableRedirects (mkClient cfg hostName) =
        { mkClient cfg hostName with
            checkRedirect := some RedirectPolicy.useLastResponse }) ∧
    runWorkerSetup cfg.DisableRedirects (runWorkerSetup cfg.DisableRedirects c) =
      runWorkerSetup cfg.DisableRedirects c := by
  refine ⟨?_, ?_, ?_, ?_⟩
  · cases h : cfg.DisableRedirects <;> simp [runWorkerSetup, h]
  · intro h
    simp [runWorkerSetup, h]
  · intro h
    simp [runWorkerSetup, h]
  · cases h : cfg.DisableRedirects <;> simp [runWorkerSetup, h]

/-- Witness for the amended C7 on the concrete redirect-disabling
configuration. -/
theorem client_mutation_amended_witness :
    cfgRedirect.DisableRedirects = true ∧
      (runWorkerSetup cfgRedirect.DisableRedirects
          (mkClient cfgRedirect "example.com")).transport =
        (mkClient cfgRedirect "example.com").transport ∧
      runWorkerSetup cfgRedirect.DisableRedirects
          (mkClient cfgRedirect "example.com") =
        { mkClient cfgRedirect "example.com" with
            checkRedirect := some RedirectPolicy.useLastResponse } := by
  have h := client_mutation_amended cfgRedirect "example.com"
    (mkClient cfgRedirect "example.com")
  exact ⟨rfl, h.1, h.2.2.1 rfl⟩

/-- C9 counterexample: consider a run whose start reading b.start was 5
and an attempt that starts at clock reading 7, hence 2 time units after
the run start.  The emitted offset is the raw reading 7 (line 214 stores
s itself), not the elapsed time 2 since the run start, so the offset is
not measured from the b.start instant. -/
theorem offset_counterexample :
    (5 : Int) ≤ attemptAt7.s ∧
      (makeRequest attemptAt7).offset ≠ attemptAt7.s - 5 := by decide

/-- C9 (amended): every emitted result carries in its offset field the
raw now() reading taken just before the request executes (lines 202 and
214), that is, time measured from the clock epoch; the elapsed time
since the run start is offset - b.start, so the offset is run-relative
only when the start reading b.start is 0. -/
theorem offset_is_clock_reading (a : Attempt) :
    (makeRequest a).offset = a.s := rfl

/-- C10: cloneRequest attaches the fresh body reader to the clone exactly
when the supplied body slice is non-empty; on an empty (or nil) slice the
clone keeps the shallow-copied Body reader of the template, shared
across all clones, while the header is value-copied either way. -/
theorem cloneRequest_body (r : GoRequest) (body : List UInt8) (f : Nat) :
    (0 < body.length → (cloneRequest r body f).bodyRef = some f) ∧
    (body.length = 0 → (cloneRequest r body f).bodyRef = r.bodyRef) ∧
    (cloneRequest r body f).header = r.header ∧
    (cloneRequest r body f).method = r.method := by
  refine ⟨?_, ?_, ?_, ?_⟩
  · intro h
    simp [cloneRequest, h]
  · intro h
    have h2 : ¬ 0 < body.length := by omega
    simp [cloneRequest, h2]
  · by_cases h : 0 < body.length <;> simp [cloneRequest, h]
  · by_cases h : 0 < body.length <;> simp [cloneRequest, h]

/-- Witness for C10 on a concrete template: a one-byte body gets the
fresh reader 9, an empty body keeps the template reader 3. -/
theorem cloneRequest_body_witness :
    0 < ([7] : List UInt8).length ∧
      (cloneRequest
          { method := "GET", url := "http://x", header := [("A", ["1"])],
            bodyRef := some 3 } [7] 9).bodyRef = some 9 ∧
      (cloneRequest
          { method := "GET", url := "http://x", header := [("A", ["1"])],
            bodyRef := some 3 } [] 9).bodyRef = some 3 :=
  ⟨by decide,
    (cloneRequest_body
      { method := "GET", url := "http://x", header := [("A", ["1"])],
        bodyRef := some 3 } [7] 9).1 (by decide),
    (cloneRequest_body
      { method := "GET", url := "http://x", header := [("A", ["1"])],
        bodyRef := some 3 } [] 9).2.1 rfl⟩

end Requester
